import Mathlib

/-!
Verification development for the hemmer-provider-sdk core.

The definitions below are a shallow embedding of the Rust sources:
  * `src/types.rs`   — the plan-diff engine (`PlanResult::from_diff`,
    `collect_all_fields`, `compute_json_diff`) and the protocol-version check;
  * `src/schema.rs`  — the schema data model (`AttributeType`, `Attribute`,
    `Block`, `NestedBlock`, `Schema`, `Diagnostic`);
  * `src/validation.rs` — the recursive validation engine (`validate`,
    `validate_block`, `validate_attribute`, `validate_attribute_type`,
    `is_int64`, ...);
  * `src/server.rs`  — the shutdown tail of `serve_on_listener`.

JSON values (`serde_json::Value`) are modelled by the mutually inductive
family `JValue`/`JList`/`JFields`.  `serde_json`'s object maps are
`BTreeMap`s (key-sorted iteration); `JFields` models the same association
as a list of key/value pairs, iterated in list order.  `serde_json`'s
`Number` is the three-variant enum `PosInt(u64) | NegInt(i64) | Float(f64)`;
a finite `f64` is modelled by the exact rational value it denotes (JSON
parsing never produces NaN or infinities), so `f64` comparisons and
`fract()` are exact operations on that rational.
-/

/-- Model of `serde_json::Number`: `PosInt(u64) | NegInt(i64) | Float(f64)`.
`float q` carries the exact rational value of the finite `f64`. -/
inductive JNumber where
  | posInt (n : Nat)
  | negInt (i : Int)
  | float (q : Rat)
deriving DecidableEq

mutual
/-- Model of `serde_json::Value`. -/
inductive JValue where
  | null
  | bool (b : Bool)
  | num (n : JNumber)
  | str (s : String)
  | arr (xs : JList)
  | obj (fields : JFields)
/-- A JSON array, as a list of values. -/
inductive JList where
  | nil
  | cons (v : JValue) (rest : JList)
/-- A JSON object, as an association list of key/value pairs
(modelling the key-sorted `serde_json::Map`). -/
inductive JFields where
  | nil
  | cons (key : String) (v : JValue) (rest : JFields)
end

mutual
/-- Structural equality on JSON values (Rust `PartialEq` on `serde_json::Value`). -/
def JValue.beq : JValue → JValue → Bool
  | .null, .null => true
  | .bool a, .bool b => a == b
  | .num a, .num b => a == b
  | .str a, .str b => a == b
  | .arr a, .arr b => JList.beq a b
  | .obj a, .obj b => JFields.beq a b
  | _, _ => false
def JList.beq : JList → JList → Bool
  | .nil, .nil => true
  | .cons a as, .cons b bs => JValue.beq a b && JList.beq as bs
  | _, _ => false
def JFields.beq : JFields → JFields → Bool
  | .nil, .nil => true
  | .cons k a as, .cons l b bs => k == l && JValue.beq a b && JFields.beq as bs
  | _, _ => false
end

mutual
theorem JValue.beq_iff_val : ∀ (a b : JValue), JValue.beq a b = true ↔ a = b
  | .null, .null => by simp [JValue.beq]
  | .bool a, .bool b => by simp [JValue.beq]
  | .num a, .num b => by simp [JValue.beq]
  | .str a, .str b => by simp [JValue.beq]
  | .arr a, .arr b => by simp [JValue.beq, JList.beq_iff_list a b]
  | .obj a, .obj b => by simp [JValue.beq, JFields.beq_iff_fields a b]
  | .null, .bool _ | .null, .num _ | .null, .str _ | .null, .arr _ | .null, .obj _
  | .bool _, .null | .bool _, .num _ | .bool _, .str _ | .bool _, .arr _ | .bool _, .obj _
  | .num _, .null | .num _, .bool _ | .num _, .str _ | .num _, .arr _ | .num _, .obj _
  | .str _, .null | .str _, .bool _ | .str _, .num _ | .str _, .arr _ | .str _, .obj _
  | .arr _, .null | .arr _, .bool _ | .arr _, .num _ | .arr _, .str _ | .arr _, .obj _
  | .obj _, .null | .obj _, .bool _ | .obj _, .num _ | .obj _, .str _ | .obj _, .arr _ => by
      simp [JValue.beq]
theorem JList.beq_iff_list : ∀ (a b : JList), JList.beq a b = true ↔ a = b
  | .nil, .nil => by simp [JList.beq]
  | .cons a as, .cons b bs => by
      simp [JList.beq, JValue.beq_iff_val a b, JList.beq_iff_list as bs]
  | .nil, .cons _ _ | .cons _ _, .nil => by simp [JList.beq]
theorem JFields.beq_iff_fields : ∀ (a b : JFields), JFields.beq a b = true ↔ a = b
  | .nil, .nil => by simp [JFields.beq]
  | .cons k a as, .cons l b bs => by
      simp [JFields.beq, JValue.beq_iff_val a b, JFields.beq_iff_fields as bs, and_assoc]
  | .nil, .cons _ _ _ | .cons _ _ _, .nil => by simp [JFields.beq]
end

instance : DecidableEq JValue := fun a b =>
  decidable_of_iff (JValue.beq a b = true) (JValue.beq_iff_val a b)

instance : DecidableEq JList := fun a b =>
  decidable_of_iff (JList.beq a b = true) (JList.beq_iff_list a b)

instance : DecidableEq JFields := fun a b =>
  decidable_of_iff (JFields.beq a b = true) (JFields.beq_iff_fields a b)

/-- Build a `JList` from a Lean list (notation helper for concrete examples). -/
def JList.ofList : List JValue → JList
  | [] => .nil
  | v :: rest => .cons v (JList.ofList rest)

/-- Build a `JFields` from a Lean association list (notation helper). -/
def JFields.ofList : List (String × JValue) → JFields
  | [] => .nil
  | (k, v) :: rest => .cons k v (JFields.ofList rest)

/-- `Map::get` on a JSON object (first matching key). -/
def JFields.get (key : String) : JFields → Option JValue
  | .nil => none
  | .cons k v rest => if k = key then some v else JFields.get key rest

/-- The list of keys of a JSON object. -/
def JFields.keys : JFields → List String
  | .nil => []
  | .cons k _ rest => k :: JFields.keys rest

/-- Append two field lists. -/
def JFields.append : JFields → JFields → JFields
  | .nil, ys => ys
  | .cons k v rest, ys => .cons k v (JFields.append rest ys)

/-- `Vec::get` on a JSON array. -/
def JList.get (idx : Nat) : JList → Option JValue
  | .nil => none
  | .cons v rest => if idx = 0 then some v else JList.get (idx - 1) rest

/-- `Vec::len` on a JSON array. -/
def JList.length : JList → Nat
  | .nil => 0
  | .cons _ rest => JList.length rest + 1

/-- Append two JSON arrays. -/
def JList.append : JList → JList → JList
  | .nil, ys => ys
  | .cons v rest, ys => .cons v (JList.append rest ys)

/-! ## `src/types.rs`: `AttributeChange`, `PlanResult` and the diff engine -/

/-- A change to a single attribute during a plan (`AttributeChange` in `src/types.rs`). -/
structure AttributeChange where
  path : String
  before : Option JValue
  after : Option JValue
deriving DecidableEq

/-- `AttributeChange::new`. -/
def AttributeChange.new (path : String) (before after : Option JValue) : AttributeChange :=
  ⟨path, before, after⟩

/-- `AttributeChange::added`: a change for a new attribute. -/
def AttributeChange.added (path : String) (value : JValue) : AttributeChange :=
  AttributeChange.new path none (some value)

/-- `AttributeChange::removed`: a change for a removed attribute. -/
def AttributeChange.removed (path : String) (value : JValue) : AttributeChange :=
  AttributeChange.new path (some value) none

/-- `AttributeChange::modified`: a change for a modified attribute. -/
def AttributeChange.modified (path : String) (before after : JValue) : AttributeChange :=
  AttributeChange.new path (some before) (some after)

/-- The result of a plan operation (`PlanResult` in `src/types.rs`). -/
structure PlanResult where
  planned_state : JValue
  changes : List AttributeChange
  requires_replace : Bool
deriving DecidableEq

mutual
/-- `collect_all_fields` from `src/types.rs`: recursively collect all fields of
a JSON value as additions.  `pre` is the Rust `prefix` argument. -/
def collect_all_fields (pre : String) (value : JValue) : List AttributeChange :=
  match value with
  | .obj map => collectObjFields pre map
  | .arr xs => collectArrFields pre 0 xs
  | _ =>
      -- Scalar value at root
      if !pre.isEmpty then [AttributeChange.added pre value] else []
/-- The `Value::Object` loop of `collect_all_fields`. -/
def collectObjFields (pre : String) : JFields → List AttributeChange
  | .nil => []
  | .cons key val rest =>
      let path := if pre.isEmpty then key else pre ++ "." ++ key
      (match val with
       | .obj _ | .arr _ => collect_all_fields path val
       | _ => [AttributeChange.added path val]) ++ collectObjFields pre rest
/-- The `Value::Array` loop of `collect_all_fields` (`idx` tracks `enumerate()`). -/
def collectArrFields (pre : String) (idx : Nat) : JList → List AttributeChange
  | .nil => []
  | .cons val rest =>
      let path :=
        if pre.isEmpty then "[" ++ toString idx ++ "]"
        else pre ++ "[" ++ toString idx ++ "]"
      (match val with
       | .obj _ | .arr _ => collect_all_fields path val
       | _ => [AttributeChange.added path val]) ++ collectArrFields pre (idx + 1) rest
end

theorem JFields.sizeOf_get_le_fields (key : String) :
    ∀ (fs : JFields), sizeOf (JFields.get key fs) ≤ sizeOf fs
  | .nil => by simp [JFields.get]
  | .cons k w rest => by
      simp only [JFields.get]
      by_cases hk : k = key
      · simp [hk]
        omega
      · simp [hk]
        have := JFields.sizeOf_get_le_fields key rest
        omega

theorem JList.sizeOf_get_le_list (idx : Nat) :
    ∀ (xs : JList), sizeOf (JList.get idx xs) ≤ sizeOf xs
  | .nil => by simp [JList.get]
  | .cons w rest => by
      simp only [JList.get]
      by_cases h0 : idx = 0
      · simp [h0]
      · simp [h0]
        have := JList.sizeOf_get_le_list (idx - 1) rest
        omega

mutual
/-- `compute_json_diff` from `src/types.rs`: recursively compute differences
between two JSON values.  `pre` is the Rust `prefix` argument. -/
def compute_json_diff (pre : String) (prior proposed : JValue) : List AttributeChange :=
  -- If values are identical, no changes
  if prior = proposed then []
  else
    match prior, proposed with
    -- Both are objects - recursively compare fields.  The Rust collects the
    -- union of keys into a HashSet, whose iteration order is unspecified;
    -- the model iterates prior keys first, then the new proposed keys.
    | .obj prior_map, .obj proposed_map =>
        diffObjKeys pre prior_map proposed_map
          ((JFields.keys prior_map ++ JFields.keys proposed_map).eraseDups)
    -- Both are arrays - compare elements for idx in 0..max_len
    | .arr prior_arr, .arr proposed_arr =>
        diffArrIdxs pre prior_arr proposed_arr
          (List.range (max (JList.length prior_arr) (JList.length proposed_arr)))
    -- Different types or different scalar values
    | _, _ =>
        if !pre.isEmpty then [AttributeChange.modified pre prior proposed]
        else
          -- Root-level scalar change
          [AttributeChange.modified "(root)" prior proposed]
termination_by (sizeOf prior + sizeOf proposed, 0)
decreasing_by
  all_goals simp_wf
  all_goals first
    | (apply Prod.Lex.right
       omega)
    | (apply Prod.Lex.left
       omega)
    | (apply Prod.Lex.left
       simp
       omega)
    | (apply Prod.Lex.left
       have h1 := JFields.sizeOf_get_le_fields key prior_map
       have h2 := JFields.sizeOf_get_le_fields key proposed_map
       omega)
    | (apply Prod.Lex.left
       have h1 := JList.sizeOf_get_le_list idx prior_arr
       have h2 := JList.sizeOf_get_le_list idx proposed_arr
       omega)
/-- The per-key loop of `compute_json_diff`'s object branch; the match body
shared by the object and array branches is `diffEntry`. -/
def diffObjKeys (pre : String) (prior_map proposed_map : JFields) :
    List String → List AttributeChange
  | [] => []
  | key :: restKeys =>
      let path := if pre.isEmpty then key else pre ++ "." ++ key
      diffEntry path (JFields.get key prior_map) (JFields.get key proposed_map) ++
        diffObjKeys pre prior_map proposed_map restKeys
termination_by keys => (sizeOf prior_map + sizeOf proposed_map + 1, keys.length)
decreasing_by
  all_goals simp_wf
  all_goals first
    | (apply Prod.Lex.right
       omega)
    | (apply Prod.Lex.left
       omega)
    | (apply Prod.Lex.left
       simp
       omega)
    | (apply Prod.Lex.left
       have h1 := JFields.sizeOf_get_le_fields key prior_map
       have h2 := JFields.sizeOf_get_le_fields key proposed_map
       omega)
    | (apply Prod.Lex.left
       have h1 := JList.sizeOf_get_le_list idx prior_arr
       have h2 := JList.sizeOf_get_le_list idx proposed_arr
       omega)
/-- The per-index loop of `compute_json_diff`'s array branch. -/
def diffArrIdxs (pre : String) (prior_arr proposed_arr : JList) :
    List Nat → List AttributeChange
  | [] => []
  | idx :: restIdxs =>
      let path :=
        if pre.isEmpty then "[" ++ toString idx ++ "]"
        else pre ++ "[" ++ toString idx ++ "]"
      diffEntry path (JList.get idx prior_arr) (JList.get idx proposed_arr) ++
        diffArrIdxs pre prior_arr proposed_arr restIdxs
termination_by idxs => (sizeOf prior_arr + sizeOf proposed_arr + 1, idxs.length)
decreasing_by
  all_goals simp_wf
  all_goals first
    | (apply Prod.Lex.right
       omega)
    | (apply Prod.Lex.left
       omega)
    | (apply Prod.Lex.left
       simp
       omega)
    | (apply Prod.Lex.left
       have h1 := JFields.sizeOf_get_le_fields key prior_map
       have h2 := JFields.sizeOf_get_le_fields key proposed_map
       omega)
    | (apply Prod.Lex.left
       have h1 := JList.sizeOf_get_le_list idx prior_arr
       have h2 := JList.sizeOf_get_le_list idx proposed_arr
       omega)
/-- The per-entry `match` of `compute_json_diff`'s object and array branches
(the two Rust loop bodies are textually identical up to the path string,
which is passed in already formatted). -/
def diffEntry (path : String) :
    Option JValue → Option JValue → List AttributeChange
  | some prior_val, some proposed_val =>
      -- Entry exists in both - check for differences
      if prior_val ≠ proposed_val then
        match prior_val, proposed_val with
        | .obj prior_fields, .obj proposed_fields =>
            -- Recursively diff nested structures
            compute_json_diff path (.obj prior_fields) (.obj proposed_fields)
        | .arr prior_elems, .arr proposed_elems =>
            compute_json_diff path (.arr prior_elems) (.arr proposed_elems)
        | _, _ =>
            -- Different types or different leaf values
            [AttributeChange.modified path prior_val proposed_val]
      else []
  | some prior_val, none =>
      -- Entry was removed
      match prior_val with
      | .obj _ | .arr _ =>
          -- Recursively mark all nested fields as removed; the Rust
          -- unwraps `change.after` (always `Some` for collected fields)
          (collect_all_fields path prior_val).map fun change =>
            AttributeChange.removed change.path (change.after.getD .null)
      | _ => [AttributeChange.removed path prior_val]
  | none, some proposed_val =>
      -- Entry was added
      match proposed_val with
      | .obj _ | .arr _ => collect_all_fields path proposed_val
      | _ => [AttributeChange.added path proposed_val]
  | none, none =>
      -- Should never happen
      []
termination_by pv qv => (sizeOf pv + sizeOf qv, 0)
decreasing_by
  all_goals simp_wf
  all_goals first
    | (apply Prod.Lex.right
       omega)
    | (apply Prod.Lex.left
       omega)
    | (apply Prod.Lex.left
       simp
       omega)
    | (apply Prod.Lex.left
       have h1 := JFields.sizeOf_get_le_fields key prior_map
       have h2 := JFields.sizeOf_get_le_fields key proposed_map
       omega)
    | (apply Prod.Lex.left
       have h1 := JList.sizeOf_get_le_list idx prior_arr
       have h2 := JList.sizeOf_get_le_list idx proposed_arr
       omega)
end

/-! Unfolding lemmas for the well-founded definitions above; these restate the
defining equations case by case and are the interface used by all proofs. -/

theorem compute_json_diff_self (pre : String) (x : JValue) : compute_json_diff pre x x = [] := by
  rw [compute_json_diff.eq_def]
  simp

theorem compute_json_diff_obj (pre : String) (pm qm : JFields) (h : pm ≠ qm) :
    compute_json_diff pre (.obj pm) (.obj qm)
      = diffObjKeys pre pm qm ((JFields.keys pm ++ JFields.keys qm).eraseDups) := by
  rw [compute_json_diff.eq_def]
  rw [if_neg (by simp [h])]
  try conv_rhs => rw [diffObjKeys.eq_def]

theorem compute_json_diff_arr (pre : String) (pa qa : JList) (h : pa ≠ qa) :
    compute_json_diff pre (.arr pa) (.arr qa)
      = diffArrIdxs pre pa qa
          (List.range (max (JList.length pa) (JList.length qa))) := by
  rw [compute_json_diff.eq_def]
  rw [if_neg (by simp [h])]
  try conv_rhs => rw [diffArrIdxs.eq_def]

theorem diffObjKeys_nil (pre : String) (pm qm : JFields) : diffObjKeys pre pm qm [] = [] := by
  rw [diffObjKeys.eq_def]

theorem diffObjKeys_cons (pre : String) (pm qm : JFields) (key : String) (rest : List String) :
    diffObjKeys pre pm qm (key :: rest)
      = diffEntry (if pre.isEmpty then key else pre ++ "." ++ key)
          (JFields.get key pm) (JFields.get key qm) ++ diffObjKeys pre pm qm rest := by
  rw [diffObjKeys.eq_def]

theorem diffArrIdxs_nil (pre : String) (pa qa : JList) : diffArrIdxs pre pa qa [] = [] := by
  rw [diffArrIdxs.eq_def]

theorem diffArrIdxs_cons (pre : String) (pa qa : JList) (idx : Nat) (rest : List Nat) :
    diffArrIdxs pre pa qa (idx :: rest)
      = diffEntry
          (if pre.isEmpty then "[" ++ toString idx ++ "]" else pre ++ "[" ++ toString idx ++ "]")
          (JList.get idx pa) (JList.get idx qa) ++ diffArrIdxs pre pa qa rest := by
  rw [diffArrIdxs.eq_def]

theorem diffEntry_none_none (path : String) : diffEntry path none none = [] := by
  rw [diffEntry.eq_def]

theorem diffEntry_some_some_eq (path : String) (v : JValue) :
    diffEntry path (some v) (some v) = [] := by
  rw [diffEntry.eq_def]
  simp

theorem diffEntry_some_some_obj (path : String) (pm qm : JFields) (h : pm ≠ qm) :
    diffEntry path (some (.obj pm)) (some (.obj qm))
      = compute_json_diff path (.obj pm) (.obj qm) := by
  rw [diffEntry.eq_def]
  simp [h]

theorem diffEntry_some_some_arr (path : String) (pa qa : JList) (h : pa ≠ qa) :
    diffEntry path (some (.arr pa)) (some (.arr qa))
      = compute_json_diff path (.arr pa) (.arr qa) := by
  rw [diffEntry.eq_def]
  simp [h]

theorem diffEntry_some_some_leaf (path : String) (pv qv : JValue) (hne : pv ≠ qv)
    (hobj : ∀ pm qm, ¬(pv = .obj pm ∧ qv = .obj qm))
    (harr : ∀ pa qa, ¬(pv = .arr pa ∧ qv = .arr qa)) :
    diffEntry path (some pv) (some qv) = [AttributeChange.modified path pv qv] := by
  rw [diffEntry.eq_def]
  dsimp only
  rw [if_pos hne]
  cases pv <;> cases qv <;> first
    | rfl
    | (exact absurd ⟨rfl, rfl⟩ (hobj _ _))
    | (exact absurd ⟨rfl, rfl⟩ (harr _ _))
    | simp_all

theorem diffEntry_some_none_obj (path : String) (pm : JFields) :
    diffEntry path (some (.obj pm)) none
      = (collect_all_fields path (.obj pm)).map fun change =>
          AttributeChange.removed change.path (change.after.getD .null) := by
  rw [diffEntry.eq_def]

theorem diffEntry_some_none_arr (path : String) (pa : JList) :
    diffEntry path (some (.arr pa)) none
      = (collect_all_fields path (.arr pa)).map fun change =>
          AttributeChange.removed change.path (change.after.getD .null) := by
  rw [diffEntry.eq_def]

theorem diffEntry_some_none_leaf (path : String) (pv : JValue)
    (hobj : ∀ pm, pv ≠ .obj pm) (harr : ∀ pa, pv ≠ .arr pa) :
    diffEntry path (some pv) none = [AttributeChange.removed path pv] := by
  rw [diffEntry.eq_def]
  cases pv <;> simp_all

theorem diffEntry_none_some_obj (path : String) (qm : JFields) :
    diffEntry path none (some (.obj qm)) = collect_all_fields path (.obj qm) := by
  rw [diffEntry.eq_def]

theorem diffEntry_none_some_arr (path : String) (qa : JList) :
    diffEntry path none (some (.arr qa)) = collect_all_fields path (.arr qa) := by
  rw [diffEntry.eq_def]

theorem diffEntry_none_some_leaf (path : String) (qv : JValue)
    (hobj : ∀ qm, qv ≠ .obj qm) (harr : ∀ qa, qv ≠ .arr qa) :
    diffEntry path none (some qv) = [AttributeChange.added path qv] := by
  rw [diffEntry.eq_def]
  cases qv <;> simp_all

/-- `PlanResult::from_diff` from `src/types.rs`. -/
def PlanResult.from_diff (prior : Option JValue) (proposed : JValue) : PlanResult :=
  match prior with
  | none =>
      -- Creating new resource - all fields are additions
      ⟨proposed, collect_all_fields "" proposed, false⟩
  | some prior_state =>
      ⟨proposed, compute_json_diff "" prior_state proposed, false⟩

/-! ## `src/types.rs`: protocol version check -/

/-- `PROTOCOL_VERSION` from `src/types.rs`. -/
def PROTOCOL_VERSION : Nat := 1

/-- `MIN_PROTOCOL_VERSION` from `src/types.rs`. -/
def MIN_PROTOCOL_VERSION : Nat := 1

/-- `check_protocol_version` from `src/types.rs`.  `client_version` is a `u32`;
the model uses `Nat` (the behaviour depends only on comparisons with the two
constants).  The `client_version > PROTOCOL_VERSION` branch only emits a
tracing warning and does not affect the returned value. -/
def check_protocol_version (client_version : Nat) : Except String Unit :=
  if client_version < MIN_PROTOCOL_VERSION then
    .error ("Client protocol version " ++ toString client_version ++
      " is too old. Minimum supported version is " ++ toString MIN_PROTOCOL_VERSION)
  else
    .ok ()

/-! ## `src/server.rs`: shutdown control flow of `serve_on_listener` -/

/-- The three ways the serve phase of `serve_on_listener` can end, i.e. the
value of `shutdown_result = tokio::time::timeout(options.shutdown_timeout,
server_future).await`: `Ok(Ok(()))` (clean graceful shutdown), `Ok(Err(e))`
(server error), or `Err(_)` (the shutdown timeout elapsed). -/
inductive ShutdownResult where
  | clean
  | serverError (e : String)
  | timedOut
deriving DecidableEq

/-- Observable provider-lifecycle events of a `serve_on_listener` run. -/
inductive ServerEvent where
  | stopCalled
deriving DecidableEq

/-- Control-flow model of the tail of `serve_on_listener` in `src/server.rs`
(after `tokio::time::timeout(options.shutdown_timeout, server_future)` has
produced `shutdown_result`).  `stop_result` is what the provider's `stop()`
returns if it is invoked.  The model returns the list of lifecycle events
(each `stop()` invocation is recorded) together with the function's return
value.  Mirrors the source: the `Ok(Err(e))` arm does `return Err(e.into())`
before the `stop()` call site; in the other two arms `stop()` is called, a
failure from it is only logged, and the function returns `Ok(())`. -/
def serve_on_listener_shutdown (shutdown_result : ShutdownResult)
    (stop_result : Except String Unit) : List ServerEvent × Except String Unit :=
  match shutdown_result with
  | .clean =>
      -- info!("Server shutdown complete"); then stop() is called and
      -- its error, if any, is logged
      match stop_result with
      | _ => ([.stopCalled], .ok ())
  | .serverError e =>
      -- error!(...); return Err(e.into())
      ([], .error e)
  | .timedOut =>
      -- warn!("Shutdown timeout exceeded, forcing shutdown"); then stop()
      match stop_result with
      | _ => ([.stopCalled], .ok ())

/-! ## Structural invariants of `collect_all_fields` -/

mutual
/-- Every change collected by `collect_all_fields` is an addition:
`before = None` and `after = Some(_)`. -/
theorem collect_all_fields_adds :
    ∀ (pre : String) (v : JValue) (c : AttributeChange),
      c ∈ collect_all_fields pre v → c.before = none ∧ c.after.isSome
  | pre, .obj map, c => by
      intro h
      simp only [collect_all_fields] at h
      exact collectObjFields_adds pre map c h
  | pre, .arr xs, c => by
      intro h
      simp only [collect_all_fields] at h
      exact collectArrFields_adds pre 0 xs c h
  | pre, .null, c => by
      intro h
      simp only [collect_all_fields] at h
      by_cases hp : pre.isEmpty <;> simp [hp] at h
      subst h
      simp [AttributeChange.added, AttributeChange.new]
  | pre, .bool b, c => by
      intro h
      simp only [collect_all_fields] at h
      by_cases hp : pre.isEmpty <;> simp [hp] at h
      subst h
      simp [AttributeChange.added, AttributeChange.new]
  | pre, .num n, c => by
      intro h
      simp only [collect_all_fields] at h
      by_cases hp : pre.isEmpty <;> simp [hp] at h
      subst h
      simp [AttributeChange.added, AttributeChange.new]
  | pre, .str s, c => by
      intro h
      simp only [collect_all_fields] at h
      by_cases hp : pre.isEmpty <;> simp [hp] at h
      subst h
      simp [AttributeChange.added, AttributeChange.new]
theorem collectObjFields_adds :
    ∀ (pre : String) (fs : JFields) (c : AttributeChange),
      c ∈ collectObjFields pre fs → c.before = none ∧ c.after.isSome
  | pre, .nil, c => by
      intro h
      simp [collectObjFields] at h
  | pre, .cons key val rest, c => by
      intro h
      simp only [collectObjFields, List.mem_append] at h
      rcases h with h | h
      · cases val with
        | obj m => exact collect_all_fields_adds _ (.obj m) c (by simpa using h)
        | arr xs => exact collect_all_fields_adds _ (.arr xs) c (by simpa using h)
        | null =>
            simp at h
            subst h
            simp [AttributeChange.added, AttributeChange.new]
        | bool b =>
            simp at h
            subst h
            simp [AttributeChange.added, AttributeChange.new]
        | num n =>
            simp at h
            subst h
            simp [AttributeChange.added, AttributeChange.new]
        | str s =>
            simp at h
            subst h
            simp [AttributeChange.added, AttributeChange.new]
      · exact collectObjFields_adds pre rest c h
theorem collectArrFields_adds :
    ∀ (pre : String) (idx : Nat) (xs : JList) (c : AttributeChange),
      c ∈ collectArrFields pre idx xs → c.before = none ∧ c.after.isSome
  | pre, idx, .nil, c => by
      intro h
      simp [collectArrFields] at h
  | pre, idx, .cons val rest, c => by
      intro h
      simp only [collectArrFields, List.mem_append] at h
      rcases h with h | h
      · cases val with
        | obj m => exact collect_all_fields_adds _ (.obj m) c (by simpa using h)
        | arr ys => exact collect_all_fields_adds _ (.arr ys) c (by simpa using h)
        | null =>
            simp at h
            subst h
            simp [AttributeChange.added, AttributeChange.new]
        | bool b =>
            simp at h
            subst h
            simp [AttributeChange.added, AttributeChange.new]
        | num n =>
            simp at h
            subst h
            simp [AttributeChange.added, AttributeChange.new]
        | str s =>
            simp at h
            subst h
            simp [AttributeChange.added, AttributeChange.new]
      · exact collectArrFields_adds pre (idx + 1) rest c h
end

/-! ## Lemmas about object/array lookup used for the empty-container claims -/

theorem JFields.get_append :
    ∀ (fs gs : JFields) (k : String),
      JFields.get k (JFields.append fs gs)
        = match JFields.get k fs with
          | some v => some v
          | none => JFields.get k gs
  | .nil, gs, k => by simp [JFields.append, JFields.get]
  | .cons key v rest, gs, k => by
      by_cases hk : key = k <;>
        simp [JFields.append, JFields.get, hk, JFields.get_append rest gs k]

theorem JFields.keys_append :
    ∀ (fs gs : JFields),
      JFields.keys (JFields.append fs gs) = JFields.keys fs ++ JFields.keys gs
  | .nil, gs => by simp [JFields.append, JFields.keys]
  | .cons key v rest, gs => by
      simp [JFields.append, JFields.keys, JFields.keys_append rest gs]

theorem JList.length_append :
    ∀ (xs ys : JList),
      JList.length (JList.append xs ys) = JList.length xs + JList.length ys
  | .nil, ys => by simp [JList.append, JList.length]
  | .cons v rest, ys => by
      simp [JList.append, JList.length, JList.length_append rest ys]
      omega

theorem JList.get_append_lt :
    ∀ (xs ys : JList) (idx : Nat), idx < JList.length xs →
      JList.get idx (JList.append xs ys) = JList.get idx xs
  | .nil, ys, idx => by simp [JList.length]
  | .cons v rest, ys, idx => by
      intro hlt
      by_cases h0 : idx = 0
      · simp [JList.append, JList.get, h0]
      · simp only [JList.append, JList.get, if_neg h0]
        exact JList.get_append_lt rest ys (idx - 1)
          (by simp [JList.length] at hlt; omega)

theorem JList.get_append_ge :
    ∀ (xs ys : JList) (idx : Nat), JList.length xs ≤ idx →
      JList.get idx (JList.append xs ys) = JList.get (idx - JList.length xs) ys
  | .nil, ys, idx => by simp [JList.append, JList.length]
  | .cons v rest, ys, idx => by
      intro hge
      simp [JList.length] at hge
      have h0 : idx ≠ 0 := by omega
      simp only [JList.append, JList.get, if_neg h0]
      rw [JList.get_append_ge rest ys (idx - 1) (by omega)]
      congr 1
      simp [JList.length]
      omega

theorem JList.get_none_of_ge :
    ∀ (xs : JList) (idx : Nat), JList.length xs ≤ idx → JList.get idx xs = none
  | .nil, idx => by simp [JList.get]
  | .cons v rest, idx => by
      intro hge
      simp [JList.length] at hge
      have h0 : idx ≠ 0 := by omega
      simp only [JList.get, if_neg h0]
      exact JList.get_none_of_ge rest (idx - 1) (by omega)

/-- `diffEntry` of two equal entries is empty. -/
theorem diffEntry_self (path : String) : ∀ (o : Option JValue), diffEntry path o o = []
  | none => diffEntry_none_none path
  | some v => diffEntry_some_some_eq path v

/-- If every single key yields an empty `diffEntry`, the whole key loop yields
no changes. -/
theorem diffObjKeys_all_nil (pre : String) (pm qm : JFields)
    (h : ∀ k : String,
      diffEntry (if pre.isEmpty then k else pre ++ "." ++ k)
        (JFields.get k pm) (JFields.get k qm) = []) :
    ∀ (keysList : List String), diffObjKeys pre pm qm keysList = []
  | [] => diffObjKeys_nil pre pm qm
  | key :: rest => by
      rw [diffObjKeys_cons, h key, diffObjKeys_all_nil pre pm qm h rest]
      simp

/-- If every single index yields an empty `diffEntry`, the whole index loop
yields no changes. -/
theorem diffArrIdxs_all_nil (pre : String) (pa qa : JList)
    (h : ∀ idx : Nat,
      diffEntry
        (if pre.isEmpty then "[" ++ toString idx ++ "]" else pre ++ "[" ++ toString idx ++ "]")
        (JList.get idx pa) (JList.get idx qa) = []) :
    ∀ (idxs : List Nat), diffArrIdxs pre pa qa idxs = []
  | [] => diffArrIdxs_nil pre pa qa
  | idx :: rest => by
      rw [diffArrIdxs_cons, h idx, diffArrIdxs_all_nil pre pa qa h rest]
      simp

/-! ## Claim theorems -/

/-- C1: for every JSON value `x`, `PlanResult::from_diff(Some(&x), &x)` returns
a `PlanResult` whose `planned_state` is `x`, whose `changes` sequence is empty,
and whose `requires_replace` is `false`. -/
theorem C1_from_diff_self (x : JValue) :
    PlanResult.from_diff (some x) x = ⟨x, [], false⟩ := by
  simp [PlanResult.from_diff, compute_json_diff_self]

/-- C7: `check_protocol_version` errors for every client version strictly below
`MIN_PROTOCOL_VERSION` and returns `Ok` for every version at or above it,
including every version strictly above `PROTOCOL_VERSION`. -/
theorem C7_check_protocol_version (v : Nat) :
    (v < MIN_PROTOCOL_VERSION → ∃ msg, check_protocol_version v = .error msg)
    ∧ (MIN_PROTOCOL_VERSION ≤ v → check_protocol_version v = .ok ())
    ∧ (PROTOCOL_VERSION < v → check_protocol_version v = .ok ()) := by
  refine ⟨fun h => ?_, fun h => ?_, fun h => ?_⟩
  · simp only [check_protocol_version, if_pos h]
    exact ⟨_, rfl⟩
  · simp [check_protocol_version, Nat.not_lt.mpr h]
  · have : MIN_PROTOCOL_VERSION ≤ v := by
      simp [MIN_PROTOCOL_VERSION] at *
      omega
    simp [check_protocol_version, Nat.not_lt.mpr this]

theorem C7_check_protocol_version_witness :
    (∃ msg, check_protocol_version 0 = .error msg)
    ∧ check_protocol_version 1 = .ok ()
    ∧ check_protocol_version 7 = .ok () :=
  ⟨(C7_check_protocol_version 0).1 (by decide),
   (C7_check_protocol_version 1).2.1 (by decide),
   (C7_check_protocol_version 7).2.2 (by decide)⟩

/-- C8 counterexample: when the serve phase ends with a server error,
`serve_on_listener` returns the error before reaching the `stop()` call, so
`stop()` is invoked zero times — refuting the claim that it is invoked exactly
once in every run. -/
theorem C8_serverError_skips_stop :
    (serve_on_listener_shutdown (.serverError "boom") (.ok ())).1.count .stopCalled = 0
    ∧ (serve_on_listener_shutdown (.serverError "boom") (.ok ())).2
        = .error "boom" := by
  constructor <;> rfl

/-- C8 (amended): `stop()` is invoked exactly once when the serve phase ends by
clean shutdown or by shutdown-timeout expiry, and in those runs a failure
returned by `stop()` does not change the `Ok` return path; when the serve phase
ends with a server error, the function returns the error without invoking
`stop()`. -/
theorem C8_stop_called_once (sr : ShutdownResult) (stop_result : Except String Unit) :
    ((∀ e, sr ≠ .serverError e) →
       (serve_on_listener_shutdown sr stop_result).1.count .stopCalled = 1
       ∧ (serve_on_listener_shutdown sr stop_result).2 = .ok ())
    ∧ (∀ e, sr = .serverError e →
       (serve_on_listener_shutdown sr stop_result).1.count .stopCalled = 0
       ∧ (serve_on_listener_shutdown sr stop_result).2 = .error e) := by
  cases sr with
  | clean =>
      refine ⟨fun _ => ⟨rfl, rfl⟩, fun e h => ?_⟩
      cases h
  | serverError e =>
      refine ⟨fun h => absurd rfl (h e), fun f h => ?_⟩
      cases h
      exact ⟨rfl, rfl⟩
  | timedOut =>
      refine ⟨fun _ => ⟨rfl, rfl⟩, fun e h => ?_⟩
      cases h

theorem C8_stop_called_once_witness :
    (serve_on_listener_shutdown .timedOut (.error "stop failed")).1.count .stopCalled = 1
    ∧ (serve_on_listener_shutdown .timedOut (.error "stop failed")).2 = .ok () :=
  (C8_stop_called_once .timedOut (.error "stop failed")).1 (fun e => by simp)

/-- C9: every `AttributeChange` produced by `collect_all_fields` has
`before = None` and `after = Some(_)`, for every input value and prefix — so
the `unwrap()` on `change.after` in `compute_json_diff`'s removal branches can
never panic. -/
theorem C9_collect_all_fields_additions (pre : String) (v : JValue)
    (c : AttributeChange) (h : c ∈ collect_all_fields pre v) :
    c.before = none ∧ c.after.isSome :=
  collect_all_fields_adds pre v c h

theorem C9_collect_all_fields_additions_witness :
    (AttributeChange.added "a" .null).before = none
    ∧ (AttributeChange.added "a" .null).after.isSome :=
  C9_collect_all_fields_additions "" (.obj (.cons "a" .null .nil))
    (AttributeChange.added "a" .null) (by decide)

/-- C4: creating `{"name":"t","tags":["a","b"]}` yields exactly the three
additions `name`, `tags[0]`, `tags[1]` (each with `before = None` and `after`
the leaf value), and creating any scalar (non-object, non-array) value yields
no changes at all. -/
theorem C4_create_additions :
    ((PlanResult.from_diff none
        (.obj (JFields.ofList
          [("name", .str "t"), ("tags", .arr (JList.ofList [.str "a", .str "b"]))]))).changes
      = [AttributeChange.added "name" (.str "t"),
         AttributeChange.added "tags[0]" (.str "a"),
         AttributeChange.added "tags[1]" (.str "b")])
    ∧ (∀ v : JValue, (∀ fs, v ≠ .obj fs) → (∀ xs, v ≠ .arr xs) →
        (PlanResult.from_diff none v).changes = []) := by
  constructor
  · decide
  · intro v hobj harr
    cases v with
    | obj fs => exact absurd rfl (hobj fs)
    | arr xs => exact absurd rfl (harr xs)
    | null => rfl
    | bool b => rfl
    | num n => rfl
    | str s => rfl

theorem C4_create_additions_witness :
    (PlanResult.from_diff none (.str "x")).changes = [] :=
  C4_create_additions.2 (.str "x") (fun fs => by simp) (fun xs => by simp)

/-- C5: diffing `{"value":42}` against `{"value":"42"}` yields exactly one
`modified` change at path `"value"` with `before = 42` and `after = "42"`;
in general, two differing values under the same key that are not both objects
and not both arrays produce exactly one `modified` change at that path. -/
theorem C5_modified_leaf :
    (PlanResult.from_diff (some (.obj (JFields.ofList [("value", .num (.posInt 42))])))
        (.obj (JFields.ofList [("value", .str "42")]))
      = ⟨.obj (JFields.ofList [("value", .str "42")]),
         [AttributeChange.modified "value" (.num (.posInt 42)) (.str "42")], false⟩)
    ∧ (∀ (k : String) (a b : JValue), a ≠ b →
        (∀ pm qm, ¬(a = .obj pm ∧ b = .obj qm)) →
        (∀ pa qa, ¬(a = .arr pa ∧ b = .arr qa)) →
        compute_json_diff "" (.obj (.cons k a .nil)) (.obj (.cons k b .nil))
          = [AttributeChange.modified k a b]) := by
  have gen : ∀ (k : String) (a b : JValue), a ≠ b →
      (∀ pm qm, ¬(a = .obj pm ∧ b = .obj qm)) →
      (∀ pa qa, ¬(a = .arr pa ∧ b = .arr qa)) →
      compute_json_diff "" (.obj (.cons k a .nil)) (.obj (.cons k b .nil))
        = [AttributeChange.modified k a b] := by
    intro k a b hne hobj harr
    have hpm : (JFields.cons k a .nil) ≠ (JFields.cons k b .nil) := by
      intro h
      injection h with h1 h2 h3
      exact hne h2
    rw [compute_json_diff_obj _ _ _ hpm]
    have hkeys : ((JFields.keys (.cons k a .nil)) ++ (JFields.keys (.cons k b .nil))).eraseDups
        = [k] := by
      simp [JFields.keys, List.eraseDups, List.eraseDups.loop]
    rw [hkeys, diffObjKeys_cons, diffObjKeys_nil]
    have hget1 : JFields.get k (JFields.cons k a .nil) = some a := by simp [JFields.get]
    have hget2 : JFields.get k (JFields.cons k b .nil) = some b := by simp [JFields.get]
    have hpath : (if ("" : String).isEmpty then k else "" ++ "." ++ k) = k := rfl
    rw [hget1, hget2, hpath, diffEntry_some_some_leaf _ _ _ hne hobj harr]
    simp
  refine ⟨?_, gen⟩
  have h := gen "value" (.num (.posInt 42)) (.str "42") (by simp)
    (fun pm qm hc => by simp at hc) (fun pa qa hc => by simp at hc)
  simp only [JFields.ofList, PlanResult.from_diff]
  rw [h]

theorem C5_modified_leaf_witness :
    compute_json_diff "" (.obj (.cons "value" (.bool true) .nil))
        (.obj (.cons "value" .null .nil))
      = [AttributeChange.modified "value" (.bool true) .null] :=
  C5_modified_leaf.2 "value" (.bool true) .null (by simp)
    (fun pm qm hc => by simp at hc) (fun pa qa hc => by simp at hc)

/-- C10: adding or removing a field (or array element) whose value is an empty
object `{}` or empty array `[]` produces no `AttributeChange` at all, at any
prefix; `PlanResult::from_diff` reports such a structural change with an empty
changes sequence. -/
theorem C10_empty_container_changes :
    (∀ pre : String,
       collect_all_fields pre (.obj .nil) = [] ∧ collect_all_fields pre (.arr .nil) = [])
    ∧ (∀ (pre : String) (fields : JFields) (key : String) (e : JValue),
        JFields.get key fields = none → (e = .obj .nil ∨ e = .arr .nil) →
        compute_json_diff pre (.obj fields)
            (.obj (JFields.append fields (.cons key e .nil))) = []
        ∧ compute_json_diff pre (.obj (JFields.append fields (.cons key e .nil)))
            (.obj fields) = [])
    ∧ (∀ (pre : String) (xs : JList) (e : JValue), (e = .obj .nil ∨ e = .arr .nil) →
        compute_json_diff pre (.arr xs) (.arr (JList.append xs (.cons e .nil))) = []
        ∧ compute_json_diff pre (.arr (JList.append xs (.cons e .nil))) (.arr xs) = [])
    ∧ (∀ (fields : JFields) (key : String) (e : JValue),
        JFields.get key fields = none → (e = .obj .nil ∨ e = .arr .nil) →
        (PlanResult.from_diff (some (.obj fields))
            (.obj (JFields.append fields (.cons key e .nil)))).changes = []
        ∧ (PlanResult.from_diff (some (.obj (JFields.append fields (.cons key e .nil))))
            (.obj fields)).changes = []) := by
  have hempty : ∀ pre : String,
      collect_all_fields pre (.obj .nil) = [] ∧ collect_all_fields pre (.arr .nil) = [] := by
    intro pre
    exact ⟨rfl, rfl⟩
  have hobjcase : ∀ (pre : String) (fields : JFields) (key : String) (e : JValue),
      JFields.get key fields = none → (e = .obj .nil ∨ e = .arr .nil) →
      compute_json_diff pre (.obj fields)
          (.obj (JFields.append fields (.cons key e .nil))) = []
      ∧ compute_json_diff pre (.obj (JFields.append fields (.cons key e .nil)))
          (.obj fields) = [] := by
    intro pre fields key e hget he
    have hne : fields ≠ JFields.append fields (.cons key e .nil) := by
      intro heq
      have hk := congrArg (fun fs => (JFields.keys fs).length) heq
      simp [JFields.keys_append, JFields.keys] at hk
    have hs_hit : JFields.get key (JFields.cons key e .nil) = some e := by
      simp [JFields.get]
    have hs_miss : ∀ k : String, key ≠ k → JFields.get k (JFields.cons key e .nil) = none := by
      intro k hkey
      simp [JFields.get, hkey]
    have hentry : ∀ k : String,
        diffEntry (if pre.isEmpty then k else pre ++ "." ++ k)
          (JFields.get k fields)
          (JFields.get k (JFields.append fields (.cons key e .nil))) = [] := by
      intro k
      rw [JFields.get_append]
      cases hk : JFields.get k fields with
      | some v => exact diffEntry_self _ (some v)
      | none =>
          dsimp only
          by_cases hkey : key = k
          · subst hkey
            rw [hs_hit]
            rcases he with he | he <;> subst he
            · rw [diffEntry_none_some_obj]
              exact (hempty _).1
            · rw [diffEntry_none_some_arr]
              exact (hempty _).2
          · rw [hs_miss k hkey]
            exact diffEntry_none_none _
    have hentry2 : ∀ k : String,
        diffEntry (if pre.isEmpty then k else pre ++ "." ++ k)
          (JFields.get k (JFields.append fields (.cons key e .nil)))
          (JFields.get k fields) = [] := by
      intro k
      rw [JFields.get_append]
      cases hk : JFields.get k fields with
      | some v => exact diffEntry_self _ (some v)
      | none =>
          dsimp only
          by_cases hkey : key = k
          · subst hkey
            rw [hs_hit]
            rcases he with he | he <;> subst he
            · rw [diffEntry_some_none_obj, (hempty _).1]
              rfl
            · rw [diffEntry_some_none_arr, (hempty _).2]
              rfl
          · rw [hs_miss k hkey]
            exact diffEntry_none_none _
    constructor
    · rw [compute_json_diff_obj _ _ _ hne]
      exact diffObjKeys_all_nil pre _ _ hentry _
    · rw [compute_json_diff_obj _ _ _ (Ne.symm hne)]
      exact diffObjKeys_all_nil pre _ _ hentry2 _
  have harrcase : ∀ (pre : String) (xs : JList) (e : JValue), (e = .obj .nil ∨ e = .arr .nil) →
      compute_json_diff pre (.arr xs) (.arr (JList.append xs (.cons e .nil))) = []
      ∧ compute_json_diff pre (.arr (JList.append xs (.cons e .nil))) (.arr xs) = [] := by
    intro pre xs e he
    have hne : xs ≠ JList.append xs (.cons e .nil) := by
      intro heq
      have hk := congrArg JList.length heq
      simp [JList.length_append, JList.length] at hk
    have hs_hit : JList.get 0 (JList.cons e .nil) = some e := by
      simp [JList.get]
    have hs_miss : ∀ j : Nat, j ≠ 0 → JList.get j (JList.cons e .nil) = none := by
      intro j hj
      simp [JList.get, hj]
    have hentry : ∀ idx : Nat,
        diffEntry
          (if pre.isEmpty then "[" ++ toString idx ++ "]" else pre ++ "[" ++ toString idx ++ "]")
          (JList.get idx xs) (JList.get idx (JList.append xs (.cons e .nil))) = [] := by
      intro idx
      by_cases hlt : idx < JList.length xs
      · rw [JList.get_append_lt xs _ idx hlt]
        exact diffEntry_self _ _
      · have hge : JList.length xs ≤ idx := by omega
        rw [JList.get_append_ge xs _ idx hge, JList.get_none_of_ge xs idx hge]
        by_cases heq : idx = JList.length xs
        · have h0 : idx - JList.length xs = 0 := by omega
          rw [h0, hs_hit]
          rcases he with he | he <;> subst he
          · rw [diffEntry_none_some_obj]
            exact (hempty _).1
          · rw [diffEntry_none_some_arr]
            exact (hempty _).2
        · have h0 : idx - JList.length xs ≠ 0 := by omega
          rw [hs_miss _ h0]
          exact diffEntry_none_none _
    have hentry2 : ∀ idx : Nat,
        diffEntry
          (if pre.isEmpty then "[" ++ toString idx ++ "]" else pre ++ "[" ++ toString idx ++ "]")
          (JList.get idx (JList.append xs (.cons e .nil))) (JList.get idx xs) = [] := by
      intro idx
      by_cases hlt : idx < JList.length xs
      · rw [JList.get_append_lt xs _ idx hlt]
        exact diffEntry_self _ _
      · have hge : JList.length xs ≤ idx := by omega
        rw [JList.get_append_ge xs _ idx hge, JList.get_none_of_ge xs idx hge]
        by_cases heq : idx = JList.length xs
        · have h0 : idx - JList.length xs = 0 := by omega
          rw [h0, hs_hit]
          rcases he with he | he <;> subst he
          · rw [diffEntry_some_none_obj, (hempty _).1]
            rfl
          · rw [diffEntry_some_none_arr, (hempty _).2]
            rfl
        · have h0 : idx - JList.length xs ≠ 0 := by omega
          rw [hs_miss _ h0]
          exact diffEntry_none_none _
    constructor
    · rw [compute_json_diff_arr _ _ _ hne]
      exact diffArrIdxs_all_nil pre _ _ hentry _
    · rw [compute_json_diff_arr _ _ _ (Ne.symm hne)]
      exact diffArrIdxs_all_nil pre _ _ hentry2 _
  refine ⟨hempty, hobjcase, harrcase, ?_⟩
  intro fields key e hget he
  have h := hobjcase "" fields key e hget he
  exact ⟨by simp [PlanResult.from_diff, h.1], by simp [PlanResult.from_diff, h.2]⟩

theorem C10_empty_container_changes_witness :
    (PlanResult.from_diff (some (.obj (.cons "a" .null .nil)))
        (.obj (JFields.append (.cons "a" .null .nil) (.cons "b" (.obj .nil) .nil)))).changes = [] :=
  (C10_empty_container_changes.2.2.2 (.cons "a" .null .nil) "b" (.obj .nil)
    (by decide) (Or.inl rfl)).1

/-! ## `src/schema.rs`: the schema data model -/

/-! `AttributeType` from `src/schema.rs`: the `Object` variant's
`HashMap<String, AttributeType>` is modelled as an association list, mutually
inductive to allow structural recursion. -/
mutual
/-- `AttributeType` from `src/schema.rs`. -/
inductive AttributeType where
  | String
  | Int64
  | Float64
  | Bool
  | List (element_type : AttributeType)
  | Set (element_type : AttributeType)
  | Map (value_type : AttributeType)
  | Object (attrs : AttrTypeFields)
  | Dynamic
inductive AttrTypeFields where
  | nil
  | cons (name : String) (ty : AttributeType) (rest : AttrTypeFields)
end

/-- `AttributeFlags` from `src/schema.rs`. -/
structure AttributeFlags where
  required : Bool
  optional : Bool
  computed : Bool
  sensitive : Bool

/-- `AttributeFlags::required()`. -/
def AttributeFlags.requiredFlags : AttributeFlags := ⟨true, false, false, false⟩

/-- `AttributeFlags::optional()`. -/
def AttributeFlags.optionalFlags : AttributeFlags := ⟨false, true, false, false⟩

/-- `AttributeFlags::computed()`. -/
def AttributeFlags.computedFlags : AttributeFlags := ⟨false, false, true, false⟩

/-- `Attribute` from `src/schema.rs`. -/
structure Attribute where
  attr_type : AttributeType
  flags : AttributeFlags
  description : Option String
  force_new : Bool
  default : Option JValue

/-- `Attribute::new`. -/
def Attribute.new (attr_type : AttributeType) (flags : AttributeFlags) : Attribute :=
  ⟨attr_type, flags, none, false, none⟩

/-- `Attribute::required_string()`. -/
def Attribute.required_string : Attribute :=
  Attribute.new .String AttributeFlags.requiredFlags

/-- `Attribute::optional_string()`. -/
def Attribute.optional_string : Attribute :=
  Attribute.new .String AttributeFlags.optionalFlags

/-- `Attribute::computed_string()`. -/
def Attribute.computed_string : Attribute :=
  Attribute.new .String AttributeFlags.computedFlags

/-- `Attribute::required_int64()`. -/
def Attribute.required_int64 : Attribute :=
  Attribute.new .Int64 AttributeFlags.requiredFlags

/-- `Attribute::optional_int64()`. -/
def Attribute.optional_int64 : Attribute :=
  Attribute.new .Int64 AttributeFlags.optionalFlags

/-- `Attribute::required_bool()`. -/
def Attribute.required_bool : Attribute :=
  Attribute.new .Bool AttributeFlags.requiredFlags

/-- `BlockNestingMode` from `src/schema.rs`. -/
inductive BlockNestingMode where
  | Single
  | List
  | Set
  | Map
deriving DecidableEq

/-! `Block` and `NestedBlock` from `src/schema.rs`: the two `HashMap`s of a
`Block` are modelled as association lists; `HashMap` iteration order is
unspecified in Rust, the model fixes insertion order. -/
mutual
/-- `Block` from `src/schema.rs`. -/
inductive Block where
  | mk (attributes : List (String × Attribute)) (blocks : NestedBlocks)
      (description : Option String)
inductive NestedBlocks where
  | nil
  | cons (name : String) (nb : NestedBlock) (rest : NestedBlocks)
inductive NestedBlock where
  | mk (block : Block) (nesting_mode : BlockNestingMode) (min_items : Nat)
      (max_items : Nat)
end

/-- Field accessor: `Block.attributes`. -/
def Block.attributes : Block → List (String × Attribute)
  | .mk a _ _ => a

/-- Field accessor: `Block.blocks`. -/
def Block.blocks : Block → NestedBlocks
  | .mk _ b _ => b

/-- Field accessor: `NestedBlock.block`. -/
def NestedBlock.block : NestedBlock → Block
  | .mk b _ _ _ => b

/-- Field accessor: `NestedBlock.nesting_mode`. -/
def NestedBlock.nesting_mode : NestedBlock → BlockNestingMode
  | .mk _ nm _ _ => nm

/-- Field accessor: `NestedBlock.min_items`. -/
def NestedBlock.min_items : NestedBlock → Nat
  | .mk _ _ mi _ => mi

/-- Field accessor: `NestedBlock.max_items`. -/
def NestedBlock.max_items : NestedBlock → Nat
  | .mk _ _ _ ma => ma

/-- `NestedBlocks` as a Lean list (for stating accumulation properties). -/
def NestedBlocks.toList : NestedBlocks → List (String × NestedBlock)
  | .nil => []
  | .cons name nb rest => (name, nb) :: NestedBlocks.toList rest

/-- `Block::new()`. -/
def Block.newBlock : Block := .mk [] .nil none

/-- `NestedBlock::single`. -/
def NestedBlock.single (block : Block) : NestedBlock := .mk block .Single 0 1

/-- `NestedBlock::list`. -/
def NestedBlock.list (block : Block) : NestedBlock := .mk block .List 0 0

/-- `Schema` from `src/schema.rs`. -/
structure Schema where
  version : Nat
  block : Block

/-- `Schema::v0()`. -/
def Schema.v0 : Schema := ⟨0, Block.newBlock⟩

/-- `Schema::with_attribute` (insertion into the attributes map; modelled as
list append). -/
def Schema.with_attribute (s : Schema) (name : String) (attr : Attribute) : Schema :=
  match s with
  | ⟨v, .mk attrs blocks d⟩ => ⟨v, .mk (attrs ++ [(name, attr)]) blocks d⟩

/-- `Schema::with_block`. -/
def Schema.with_block (s : Schema) (name : String) (nb : NestedBlock) : Schema :=
  match s with
  | ⟨v, .mk attrs blocks d⟩ => ⟨v, .mk attrs (.cons name nb blocks) d⟩

/-- `DiagnosticSeverity` from `src/schema.rs`. -/
inductive DiagnosticSeverity where
  | Error
  | Warning
deriving DecidableEq

/-- `Diagnostic` from `src/schema.rs`.  The Rust field `attribute` (the
attribute path the diagnostic refers to) is named `attribute_path` here
because `attribute` is a Lean keyword. -/
structure Diagnostic where
  severity : DiagnosticSeverity
  summary : String
  detail : Option String
  attribute_path : Option String
deriving DecidableEq

/-- `Diagnostic::error`. -/
def Diagnostic.error (summary : String) : Diagnostic :=
  ⟨.Error, summary, none, none⟩

/-- `Diagnostic::warning`. -/
def Diagnostic.warning (summary : String) : Diagnostic :=
  ⟨.Warning, summary, none, none⟩

/-- `Diagnostic::with_detail`. -/
def Diagnostic.with_detail (d : Diagnostic) (detail : String) : Diagnostic :=
  ⟨d.severity, d.summary, some detail, d.attribute_path⟩

/-- `Diagnostic::with_attribute`. -/
def Diagnostic.with_attribute (d : Diagnostic) (path : String) : Diagnostic :=
  ⟨d.severity, d.summary, d.detail, some path⟩

/-- The `DiagnosticExt::with_attribute_if_not_empty` helper of `src/validation.rs`. -/
def Diagnostic.with_attribute_if_not_empty (d : Diagnostic) (path : String) : Diagnostic :=
  if path.isEmpty then d else d.with_attribute path

/-! ## `src/validation.rs`: helpers and number classification -/

/-- `join_path` from `src/validation.rs`. -/
def join_path (base name : String) : String :=
  if base.isEmpty then name else base ++ "." ++ name

/-- `value_type_name` from `src/validation.rs`. -/
def value_type_name (value : JValue) : String :=
  match value with
  | .null => "null"
  | .bool _ => "bool"
  | .num _ => "number"
  | .str _ => "string"
  | .arr _ => "array"
  | .obj _ => "object"

/-- `type_error` from `src/validation.rs`. -/
def type_error (path expected : String) (got : JValue) : Diagnostic :=
  ⟨.Error, "Invalid type for attribute '" ++ path ++ "'",
   some ("Expected " ++ expected ++ ", got " ++ value_type_name got),
   some path⟩

/-- Round a `u64` value to the nearest `f64` (round to 53 significant bits,
ties to even); used to model `as_f64()` on integers too large for `i64`. -/
def roundF64 (n : Nat) : Nat :=
  if n < 2 ^ 53 then n
  else
    let k := Nat.log2 n
    let s := k - 52
    let q := n / 2 ^ s
    let r := n % 2 ^ s
    let half := 2 ^ (s - 1)
    if r > half ∨ (r = half ∧ q % 2 = 1) then (q + 1) * 2 ^ s else q * 2 ^ s

/-- Round an `i64` value to the nearest `f64`. -/
def roundF64Int (i : Int) : Int :=
  if i < 0 then -(roundF64 i.natAbs) else roundF64 i.natAbs

/-- `serde_json::Number::as_i64`: succeeds for `NegInt` and for `PosInt`
values not exceeding `i64::MAX`; always `None` for floats. -/
def JNumber.as_i64 : JNumber → Option Int
  | .posInt n => if n ≤ 2 ^ 63 - 1 then some (n : Int) else none
  | .negInt i => some i
  | .float _ => none

/-- `serde_json::Number::as_f64`: the exact rational value of the `f64`
conversion (integers round to 53 significant bits). -/
def JNumber.as_f64 : JNumber → Option Rat
  | .posInt n => some (roundF64 n)
  | .negInt i => some (roundF64Int i)
  | .float q => some q

/-- `i64::MIN as f64`: exactly `-2^63`. -/
def I64_MIN_F : Rat := -(2 ^ 63)

/-- `i64::MAX as f64`: `2^63 - 1` is not representable as `f64` and rounds to
`2^63`. -/
def I64_MAX_F : Rat := 2 ^ 63

/-- `f64::trunc` on the exact rational value (rounding toward zero). -/
def f64_trunc (q : Rat) : Rat := if q < 0 then (⌈q⌉ : Int) else (⌊q⌋ : Int)

/-- `f64::fract` on the exact rational value: `f - f.trunc()`. -/
def f64_fract (q : Rat) : Rat := q - f64_trunc q

/-- `JValue.is_string` (Rust `Value::is_string`). -/
def JValue.is_string : JValue → Bool
  | .str _ => true
  | _ => false

/-- `JValue.is_number` (Rust `Value::is_number`). -/
def JValue.is_number : JValue → Bool
  | .num _ => true
  | _ => false

/-- `JValue.is_boolean` (Rust `Value::is_boolean`). -/
def JValue.is_boolean : JValue → Bool
  | .bool _ => true
  | _ => false

/-- `is_int64` from `src/validation.rs`: a JSON number passes the Int64 check
when `as_i64` succeeds, or when its `f64` value has zero fractional part and
lies within `[i64::MIN as f64, i64::MAX as f64]`. -/
def is_int64 (value : JValue) : Bool :=
  match value with
  | .num n =>
      match JNumber.as_i64 n with
      | some _ => true
      | none =>
          match JNumber.as_f64 n with
          | some f =>
              decide (f64_fract f = 0) && decide (I64_MIN_F ≤ f) && decide (f ≤ I64_MAX_F)
          | none => false
  | _ => false

/-! ## `src/validation.rs`: recursive type checking -/

mutual
/-- `validate_attribute_type` from `src/validation.rs`. -/
def validate_attribute_type (attr_type : AttributeType) (value : JValue)
    (path : String) : List Diagnostic :=
  match attr_type with
  | .String => if !value.is_string then [type_error path "string" value] else []
  | .Int64 => if !is_int64 value then [type_error path "int64" value] else []
  | .Float64 => if !value.is_number then [type_error path "float64" value] else []
  | .Bool => if !value.is_boolean then [type_error path "bool" value] else []
  | .List element_type =>
      match value with
      | .arr arr => validateElems element_type 0 arr path
      | _ => [type_error path "list" value]
  | .Set element_type =>
      -- Sets are represented as arrays in JSON
      match value with
      | .arr arr => validateElems element_type 0 arr path
      | _ => [type_error path "set" value]
  | .Map value_type =>
      match value with
      | .obj obj => validateMapEntries value_type obj path
      | _ => [type_error path "map" value]
  | .Object attrs =>
      match value with
      | .obj obj => validate_object_type attrs obj path
      | _ => [type_error path "object" value]
  | .Dynamic =>
      -- Dynamic accepts any value
      []
termination_by (sizeOf attr_type, 0)
decreasing_by
  all_goals simp_wf
  all_goals first
    | (apply Prod.Lex.right
       omega)
    | (apply Prod.Lex.right
       simp
       omega)
    | (apply Prod.Lex.left
       omega)
    | (apply Prod.Lex.left
       simp
       omega)
    | (apply Prod.Lex.left
       simp)
/-- The per-element loop of `validate_attribute_type`'s `List`/`Set` branch
(`i` tracks `enumerate()`; the path appends `.i`). -/
def validateElems (element_type : AttributeType) (i : Nat) (xs : JList)
    (path : String) : List Diagnostic :=
  match xs with
  | .nil => []
  | .cons elem rest =>
      validate_attribute_type element_type elem (path ++ "." ++ toString i) ++
        validateElems element_type (i + 1) rest path
termination_by (sizeOf element_type, sizeOf xs)
/-- The per-entry loop of `validate_attribute_type`'s `Map` branch. -/
def validateMapEntries (value_type : AttributeType) (obj : JFields)
    (path : String) : List Diagnostic :=
  match obj with
  | .nil => []
  | .cons key val rest =>
      validate_attribute_type value_type val (path ++ "." ++ key) ++
        validateMapEntries value_type rest path
termination_by (sizeOf value_type, sizeOf obj)
/-- `validate_object_type` from `src/validation.rs`: object attributes within
a type carry no required/optional flags, so absent fields are skipped. -/
def validate_object_type (attrs : AttrTypeFields) (obj : JFields)
    (path : String) : List Diagnostic :=
  match attrs with
  | .nil => []
  | .cons name ty rest =>
      (match JFields.get name obj with
       | some value => validate_attribute_type ty value (join_path path name)
       | none => []) ++ validate_object_type rest obj path
termination_by (sizeOf attrs, 0)
end

/-! ## `src/validation.rs`: attribute and block validation -/

/-- `validate_attribute` from `src/validation.rs`. -/
def validate_attribute (attr : Attribute) (value : Option JValue)
    (path : String) : List Diagnostic :=
  -- Skip computed-only attributes (provider sets these)
  if attr.flags.computed && !attr.flags.optional && !attr.flags.required then []
  else
    match value with
    | none | some .null =>
        -- Check if required; optional attributes can be missing/null
        if attr.flags.required then
          [((Diagnostic.error ("Missing required attribute '" ++ path ++ "'")).with_detail
              "This attribute is required and must be provided").with_attribute path]
        else []
    | some v =>
        -- Validate type
        validate_attribute_type attr.attr_type v path

/-- The attributes loop of `validate_block`. -/
def validateAttrs : List (String × Attribute) → JFields → String → List Diagnostic
  | [], _, _ => []
  | (name, attr) :: rest, obj, path =>
      validate_attribute attr (JFields.get name obj) (join_path path name) ++
        validateAttrs rest obj path

theorem NestedBlock.sizeOf_block_lt (nb : NestedBlock) :
    sizeOf (NestedBlock.block nb) + 1 < sizeOf nb := by
  cases nb with
  | mk b nm mi ma =>
      cases nm <;> simp [NestedBlock.block] <;> omega

mutual
/-- `validate_block` from `src/validation.rs`. -/
def validate_block (b : Block) (value : JValue) (path : String) : List Diagnostic :=
  match value with
  | .obj obj =>
      (match b with
       | .mk attributes blocks _ =>
          -- Validate attributes, then validate nested blocks
          validateAttrs attributes obj path ++ validateBlocks blocks obj path)
  | .null =>
      -- Null is valid for optional blocks, but we can't validate further
      []
  | _ =>
      [((Diagnostic.error "Expected object").with_detail
          ("Got " ++ value_type_name value)).with_attribute_if_not_empty path]
termination_by (sizeOf b, 0)
decreasing_by
  all_goals simp_wf
  all_goals first
    | (apply Prod.Lex.right
       omega)
    | (apply Prod.Lex.right
       simp
       omega)
    | (apply Prod.Lex.left
       omega)
    | (apply Prod.Lex.left
       simp
       omega)
    | (apply Prod.Lex.left
       have h1 := NestedBlock.sizeOf_block_lt nested
       omega)
    | (apply Prod.Lex.left
       have h1 := NestedBlock.sizeOf_block_lt nested
       simp
       omega)
    | (apply Prod.Lex.left
       simp)
/-- The nested-blocks loop of `validate_block`. -/
def validateBlocks : NestedBlocks → JFields → String → List Diagnostic
  | .nil, _, _ => []
  | .cons name nested_block rest, obj, path =>
      validate_nested_block nested_block (JFields.get name obj) (join_path path name) ++
        validateBlocks rest obj path
termination_by blocks _ _ => (sizeOf blocks, 0)
/-- `validate_nested_block` from `src/validation.rs`. -/
def validate_nested_block (nested : NestedBlock) (value : Option JValue)
    (path : String) : List Diagnostic :=
  match nested.nesting_mode with
  | .Single => validate_single_block nested value path
  | .List => validate_list_block nested value path
  | .Set =>
      -- Sets are validated the same as lists for our purposes
      validate_list_block nested value path
  | .Map => validate_map_block nested value path
termination_by (sizeOf nested, 1)
/-- `validate_single_block` from `src/validation.rs`. -/
def validate_single_block (nested : NestedBlock) (value : Option JValue)
    (path : String) : List Diagnostic :=
  match value with
  | none | some .null =>
      if nested.min_items > 0 then
        [((Diagnostic.error ("Missing required block '" ++ path ++ "'")).with_detail
            "At least one block is required").with_attribute path]
      else []
  | some v => validate_block nested.block v path
termination_by (sizeOf nested, 0)
decreasing_by
  all_goals simp_wf
  all_goals first
    | (apply Prod.Lex.right
       omega)
    | (apply Prod.Lex.left
       have h1 := NestedBlock.sizeOf_block_lt nested
       omega)
    | (apply Prod.Lex.left
       omega)
    | (apply Prod.Lex.left
       simp
       omega)
/-- `validate_list_block` from `src/validation.rs`. -/
def validate_list_block (nested : NestedBlock) (value : Option JValue)
    (path : String) : List Diagnostic :=
  match value with
  | none | some .null =>
      if nested.min_items > 0 then
        [(Diagnostic.error ("Block '" ++ path ++ "' requires at least " ++
            toString nested.min_items ++ " item(s)")).with_attribute path]
      else []
  | some (.arr arr) =>
      let len := JList.length arr
      -- Check min_items
      (if len < nested.min_items then
        [(Diagnostic.error ("Block '" ++ path ++ "' requires at least " ++
            toString nested.min_items ++ " item(s), got " ++ toString len)).with_attribute path]
      else []) ++
      -- Check max_items (0 means unlimited)
      (if nested.max_items > 0 && len > nested.max_items then
        [(Diagnostic.error ("Block '" ++ path ++ "' allows at most " ++
            toString nested.max_items ++ " item(s), got " ++ toString len)).with_attribute path]
      else []) ++
      -- Validate each block
      validateBlockItems nested.block 0 arr path
  | some v =>
      [((Diagnostic.error ("Expected list for block '" ++ path ++ "'")).with_detail
          ("Got " ++ value_type_name v)).with_attribute path]
termination_by (sizeOf nested, 0)
decreasing_by
  all_goals simp_wf
  all_goals first
    | (apply Prod.Lex.right
       omega)
    | (apply Prod.Lex.left
       have h1 := NestedBlock.sizeOf_block_lt nested
       omega)
    | (apply Prod.Lex.left
       omega)
    | (apply Prod.Lex.left
       simp
       omega)
/-- `validate_map_block` from `src/validation.rs`. -/
def validate_map_block (nested : NestedBlock) (value : Option JValue)
    (path : String) : List Diagnostic :=
  match value with
  | none | some .null =>
      if nested.min_items > 0 then
        [(Diagnostic.error ("Block '" ++ path ++ "' requires at least " ++
            toString nested.min_items ++ " item(s)")).with_attribute path]
      else []
  | some (.obj obj) =>
      let len := (JFields.keys obj).length
      (if len < nested.min_items then
        [(Diagnostic.error ("Block '" ++ path ++ "' requires at least " ++
            toString nested.min_items ++ " item(s), got " ++ toString len)).with_attribute path]
      else []) ++
      (if nested.max_items > 0 && len > nested.max_items then
        [(Diagnostic.error ("Block '" ++ path ++ "' allows at most " ++
            toString nested.max_items ++ " item(s), got " ++ toString len)).with_attribute path]
      else []) ++
      validateBlockEntries nested.block obj path
  | some v =>
      [((Diagnostic.error ("Expected map for block '" ++ path ++ "'")).with_detail
          ("Got " ++ value_type_name v)).with_attribute path]
termination_by (sizeOf nested, 0)
decreasing_by
  all_goals simp_wf
  all_goals first
    | (apply Prod.Lex.right
       omega)
    | (apply Prod.Lex.left
       have h1 := NestedBlock.sizeOf_block_lt nested
       omega)
    | (apply Prod.Lex.left
       omega)
    | (apply Prod.Lex.left
       simp
       omega)
/-- The per-item loop of `validate_list_block` (`i` tracks `enumerate()`). -/
def validateBlockItems (b : Block) (i : Nat) (items : JList)
    (path : String) : List Diagnostic :=
  match items with
  | .nil => []
  | .cons item rest =>
      validate_block b item (path ++ "." ++ toString i) ++
        validateBlockItems b (i + 1) rest path
termination_by (sizeOf b + 1, sizeOf items)
/-- The per-entry loop of `validate_map_block`. -/
def validateBlockEntries (b : Block) (entries : JFields)
    (path : String) : List Diagnostic :=
  match entries with
  | .nil => []
  | .cons key item rest =>
      validate_block b item (path ++ "." ++ key) ++
        validateBlockEntries b rest path
termination_by (sizeOf b + 1, sizeOf entries)
end

/-- `validate` from `src/validation.rs`. -/
def validate (schema : Schema) (value : JValue) : List Diagnostic :=
  validate_block schema.block value ""

/-- `validate_result` from `src/validation.rs`. -/
def validate_result (schema : Schema) (value : JValue) :
    Except (List Diagnostic) Unit :=
  let diagnostics := validate schema value
  if diagnostics.isEmpty then .ok () else .error diagnostics

/-- `is_valid` from `src/validation.rs`. -/
def is_valid (schema : Schema) (value : JValue) : Bool :=
  (validate schema value).isEmpty

/-! Unfolding lemmas for the validation engine's well-founded definitions. -/

theorem validate_attribute_type_String (value : JValue) (path : String) :
    validate_attribute_type .String value path
      = if !value.is_string then [type_error path "string" value] else [] := by
  rw [validate_attribute_type.eq_def]

theorem validate_attribute_type_Int64 (value : JValue) (path : String) :
    validate_attribute_type .Int64 value path
      = if !is_int64 value then [type_error path "int64" value] else [] := by
  rw [validate_attribute_type.eq_def]

theorem validate_attribute_type_Float64 (value : JValue) (path : String) :
    validate_attribute_type .Float64 value path
      = if !value.is_number then [type_error path "float64" value] else [] := by
  rw [validate_attribute_type.eq_def]

theorem validate_attribute_type_Bool (value : JValue) (path : String) :
    validate_attribute_type .Bool value path
      = if !value.is_boolean then [type_error path "bool" value] else [] := by
  rw [validate_attribute_type.eq_def]

theorem validate_attribute_type_Dynamic (value : JValue) (path : String) :
    validate_attribute_type .Dynamic value path = [] := by
  rw [validate_attribute_type.eq_def]

theorem validate_block_obj (attributes : List (String × Attribute))
    (blocks : NestedBlocks) (d : Option String) (obj : JFields) (path : String) :
    validate_block (.mk attributes blocks d) (.obj obj) path
      = validateAttrs attributes obj path ++ validateBlocks blocks obj path := by
  rw [validate_block.eq_def]

theorem validate_block_null (b : Block) (path : String) :
    validate_block b .null path = [] := by
  rw [validate_block.eq_def]

theorem validate_block_not_obj (b : Block) (value : JValue) (path : String)
    (hobj : ∀ fs, value ≠ .obj fs) (hnull : value ≠ .null) :
    validate_block b value path
      = [((Diagnostic.error "Expected object").with_detail
          ("Got " ++ value_type_name value)).with_attribute_if_not_empty path] := by
  rw [validate_block.eq_def]
  cases value with
  | obj fs => exact absurd rfl (hobj fs)
  | null => exact absurd rfl hnull
  | bool v => rfl
  | num v => rfl
  | str v => rfl
  | arr v => rfl

theorem validateBlocks_nil (obj : JFields) (path : String) :
    validateBlocks .nil obj path = [] := by
  rw [validateBlocks.eq_def]

theorem validateBlocks_cons (name : String) (nb : NestedBlock) (rest : NestedBlocks)
    (obj : JFields) (path : String) :
    validateBlocks (.cons name nb rest) obj path
      = validate_nested_block nb (JFields.get name obj) (join_path path name) ++
          validateBlocks rest obj path := by
  rw [validateBlocks.eq_def]

theorem validateBlocks_length_sum :
    ∀ (blocks : NestedBlocks) (obj : JFields) (path : String),
      (validateBlocks blocks obj path).length
        = ((NestedBlocks.toList blocks).map fun p =>
            (validate_nested_block p.2 (JFields.get p.1 obj) (join_path path p.1)).length).sum
  | .nil, obj, path => by simp [validateBlocks_nil, NestedBlocks.toList]
  | .cons name nb rest, obj, path => by
      simp [validateBlocks_cons, NestedBlocks.toList,
        validateBlocks_length_sum rest obj path]

/-- C2: `validate` accumulates one diagnostic per violation and never
short-circuits: on an object, a block contributes the concatenation of its
per-attribute and per-nested-block diagnostics (so the total count is the sum
of the individual counts — e.g. three required attributes with wrong-typed
values yield exactly three diagnostics); the only cut-off is a non-object,
non-null value at a block boundary, which yields exactly one
"Expected object" diagnostic with no further descent. -/
theorem C2_validate_accumulates :
    (∀ (attributes : List (String × Attribute)) (blocks : NestedBlocks)
        (d : Option String) (obj : JFields) (path : String),
        validate_block (.mk attributes blocks d) (.obj obj) path
          = validateAttrs attributes obj path ++ validateBlocks blocks obj path)
    ∧ (∀ (attrs : List (String × Attribute)) (obj : JFields) (path : String),
        (validateAttrs attrs obj path).length
          = (attrs.map fun p =>
              (validate_attribute p.2 (JFields.get p.1 obj) (join_path path p.1)).length).sum)
    ∧ (∀ (blocks : NestedBlocks) (obj : JFields) (path : String),
        (validateBlocks blocks obj path).length
          = ((NestedBlocks.toList blocks).map fun p =>
              (validate_nested_block p.2 (JFields.get p.1 obj) (join_path path p.1)).length).sum)
    ∧ (∀ (b : Block) (value : JValue) (path : String),
        (∀ fs, value ≠ .obj fs) → value ≠ .null →
        validate_block b value path
          = [((Diagnostic.error "Expected object").with_detail
              ("Got " ++ value_type_name value)).with_attribute_if_not_empty path])
    ∧ (validate
        (((Schema.v0.with_attribute "name" Attribute.required_string).with_attribute
            "count" Attribute.required_int64).with_attribute "enabled" Attribute.required_bool)
        (.obj (JFields.ofList
          [("count", .str "not a number"), ("enabled", .str "yes"),
           ("name", .num (.posInt 123))]))).length = 3 := by
  have hattrs : ∀ (attrs : List (String × Attribute)) (obj : JFields) (path : String),
      (validateAttrs attrs obj path).length
        = (attrs.map fun p =>
            (validate_attribute p.2 (JFields.get p.1 obj) (join_path path p.1)).length).sum := by
    intro attrs obj path
    induction attrs with
    | nil => simp [validateAttrs]
    | cons hd tl ih =>
        cases hd with
        | mk name attr => simp [validateAttrs, ih]
  have v1 : validate_attribute_type .String (.num (.posInt 123)) "name"
      = [type_error "name" "string" (.num (.posInt 123))] := by
    rw [validate_attribute_type_String]
    rfl
  have v2 : validate_attribute_type .Int64 (.str "not a number") "count"
      = [type_error "count" "int64" (.str "not a number")] := by
    rw [validate_attribute_type_Int64]
    rfl
  have v3 : validate_attribute_type .Bool (.str "yes") "enabled"
      = [type_error "enabled" "bool" (.str "yes")] := by
    rw [validate_attribute_type_Bool]
    rfl
  refine ⟨validate_block_obj, hattrs, validateBlocks_length_sum, validate_block_not_obj, ?_⟩
  rw [show (validate
        (((Schema.v0.with_attribute "name" Attribute.required_string).with_attribute
            "count" Attribute.required_int64).with_attribute "enabled" Attribute.required_bool)
        (.obj (JFields.ofList
          [("count", .str "not a number"), ("enabled", .str "yes"),
           ("name", .num (.posInt 123))])))
      = validate_block
          (.mk [("name", Attribute.required_string), ("count", Attribute.required_int64),
            ("enabled", Attribute.required_bool)] .nil none)
          (.obj (.cons "count" (.str "not a number") (.cons "enabled" (.str "yes")
            (.cons "name" (.num (.posInt 123)) .nil)))) "" from rfl]
  rw [validate_block_obj, validateBlocks_nil]
  rw [show validateAttrs
        [("name", Attribute.required_string), ("count", Attribute.required_int64),
         ("enabled", Attribute.required_bool)]
        (.cons "count" (.str "not a number") (.cons "enabled" (.str "yes")
          (.cons "name" (.num (.posInt 123)) .nil))) ""
      = validate_attribute_type .String (.num (.posInt 123)) "name"
        ++ (validate_attribute_type .Int64 (.str "not a number") "count"
        ++ (validate_attribute_type .Bool (.str "yes") "enabled" ++ [])) from rfl]
  rw [v1, v2, v3]
  rfl

theorem C2_validate_accumulates_witness :
    validate_block Block.newBlock (.str "x") ""
      = [((Diagnostic.error "Expected object").with_detail
          ("Got " ++ value_type_name (.str "x"))).with_attribute_if_not_empty ""] :=
  C2_validate_accumulates.2.2.2.1 Block.newBlock (.str "x") ""
    (fun fs => by simp) (by simp)

/-- C3: validating `{}` against `{name: required string, count: optional int64}`
yields exactly one diagnostic, an `Error` at attribute path `"name"`; in
general an absent or explicitly-null attribute yields the
"Missing required attribute" error iff its `required` flag is set. -/
theorem C3_missing_required :
    (validate ((Schema.v0.with_attribute "name" Attribute.required_string).with_attribute
        "count" Attribute.optional_int64) (.obj .nil)
      = [⟨.Error, "Missing required attribute 'name'",
          some "This attribute is required and must be provided", some "name"⟩])
    ∧ (∀ (attr : Attribute) (path : String) (v : Option JValue),
        v = none ∨ v = some .null →
        validate_attribute attr v path
          = if attr.flags.required then
              [((Diagnostic.error ("Missing required attribute '" ++ path ++ "'")).with_detail
                  "This attribute is required and must be provided").with_attribute path]
            else []) := by
  have hgen : ∀ (attr : Attribute) (path : String) (v : Option JValue),
      v = none ∨ v = some .null →
      validate_attribute attr v path
        = if attr.flags.required then
            [((Diagnostic.error ("Missing required attribute '" ++ path ++ "'")).with_detail
                "This attribute is required and must be provided").with_attribute path]
          else [] := by
    intro attr path v hv
    rcases hv with rfl | rfl <;>
      by_cases hr : attr.flags.required <;>
        simp [validate_attribute, hr]
  refine ⟨?_, hgen⟩
  rw [show (validate ((Schema.v0.with_attribute "name" Attribute.required_string).with_attribute
        "count" Attribute.optional_int64) (.obj .nil))
      = validate_block
          (.mk [("name", Attribute.required_string), ("count", Attribute.optional_int64)]
            .nil none) (.obj .nil) "" from rfl]
  rw [validate_block_obj, validateBlocks_nil]
  rw [show validateAttrs
        [("name", Attribute.required_string), ("count", Attribute.optional_int64)]
        .nil ""
      = validate_attribute Attribute.required_string none "name"
        ++ (validate_attribute Attribute.optional_int64 none "count" ++ []) from rfl]
  rw [hgen Attribute.required_string "name" none (Or.inl rfl),
    hgen Attribute.optional_int64 "count" none (Or.inl rfl)]
  rfl

theorem C3_missing_required_witness :
    validate_attribute Attribute.required_string none "name"
      = if Attribute.required_string.flags.required then
          [((Diagnostic.error ("Missing required attribute '" ++ "name" ++ "'")).with_detail
              "This attribute is required and must be provided").with_attribute "name"]
        else [] :=
  C3_missing_required.2 Attribute.required_string "name" none (Or.inl rfl)

/-- `f64::fract` of an integer-valued float is zero. -/
theorem f64_fract_intCast (n : Int) : f64_fract ((n : Int) : Rat) = 0 := by
  rw [f64_fract, f64_trunc]
  by_cases h : ((n : Int) : Rat) < 0 <;> simp [h]

/-- C6 counterexample: the integral float `2^100` has no fractional part, yet
`is_int64` rejects it (it fails the `f <= i64::MAX as f64` range check), so
the Int64 type check of an attribute holding it produces an Error diagnostic —
refuting "accepts a JSON number exactly when it has no fractional part". -/
theorem C6_integral_float_rejected :
    f64_fract ((2 : Rat) ^ 100) = 0
    ∧ is_int64 (.num (.float ((2 : Rat) ^ 100))) = false
    ∧ validate_attribute_type .Int64 (.num (.float ((2 : Rat) ^ 100))) "count"
        = [type_error "count" "int64" (.num (.float ((2 : Rat) ^ 100)))] := by
  have hcast : ((2 : Rat) ^ 100) = (((2 ^ 100 : Int) : Int) : Rat) := by
    push_cast
    ring
  have hfract : f64_fract ((2 : Rat) ^ 100) = 0 := by
    rw [hcast, f64_fract_intCast]
  have hle : ¬((2 : Rat) ^ 100 ≤ I64_MAX_F) := by
    rw [I64_MAX_F]
    norm_num
  have hfalse : is_int64 (.num (.float ((2 : Rat) ^ 100))) = false := by
    simp [is_int64, JNumber.as_i64, JNumber.as_f64, hle]
  refine ⟨hfract, hfalse, ?_⟩
  rw [validate_attribute_type_Int64, hfalse]
  rfl

/-- C6 (amended): for an Int64 attribute, a JSON number carried as an `f64` is
accepted exactly when it has no fractional part AND lies within
`[i64::MIN as f64, i64::MAX as f64]` (= `[-2^63, 2^63]`); numbers carried as
`i64`, or as `u64` within `i64` range, are always accepted.  In particular the
integral float `42.0` validates cleanly and `42.5` yields exactly one Error
diagnostic. -/
theorem C6_int64_check (q : Rat) (n : Nat) (i : Int) :
    (is_int64 (.num (.float q)) = true
      ↔ (f64_fract q = 0 ∧ I64_MIN_F ≤ q ∧ q ≤ I64_MAX_F))
    ∧ (n ≤ 2 ^ 63 - 1 → is_int64 (.num (.posInt n)) = true)
    ∧ is_int64 (.num (.negInt i)) = true
    ∧ (validate (Schema.v0.with_attribute "count" Attribute.required_int64)
        (.obj (.cons "count" (.num (.float (42 : Rat))) .nil)) = [])
    ∧ (validate (Schema.v0.with_attribute "count" Attribute.required_int64)
        (.obj (.cons "count" (.num (.float (85 / 2 : Rat))) .nil))
      = [type_error "count" "int64" (.num (.float (85 / 2 : Rat)))]) := by
  have hiff : ∀ r : Rat, is_int64 (.num (.float r)) = true
      ↔ (f64_fract r = 0 ∧ I64_MIN_F ≤ r ∧ r ≤ I64_MAX_F) := by
    intro r
    simp [is_int64, JNumber.as_i64, JNumber.as_f64, Bool.and_eq_true, decide_eq_true_iff,
      and_assoc]
  refine ⟨hiff q, ?_, ?_, ?_, ?_⟩
  · intro h
    have h27 : n ≤ 9223372036854775807 := by omega
    simp [is_int64, JNumber.as_i64, h27]
  · simp [is_int64, JNumber.as_i64]
  · rw [show (validate (Schema.v0.with_attribute "count" Attribute.required_int64)
          (.obj (.cons "count" (.num (.float (42 : Rat))) .nil)))
        = validate_block (.mk [("count", Attribute.required_int64)] .nil none)
            (.obj (.cons "count" (.num (.float (42 : Rat))) .nil)) "" from rfl]
    rw [validate_block_obj, validateBlocks_nil]
    rw [show validateAttrs [("count", Attribute.required_int64)]
          (.cons "count" (.num (.float (42 : Rat))) .nil) ""
        = validate_attribute_type .Int64 (.num (.float (42 : Rat))) "count" ++ [] from rfl]
    rw [validate_attribute_type_Int64]
    have h42 : is_int64 (.num (.float (42 : Rat))) = true := by
      rw [hiff 42]
      refine ⟨?_, by norm_num [I64_MIN_F], by norm_num [I64_MAX_F]⟩
      rw [show (42 : Rat) = (((42 : Int) : Int) : Rat) by norm_num, f64_fract_intCast]
    rw [h42]
    rfl
  · rw [show (validate (Schema.v0.with_attribute "count" Attribute.required_int64)
          (.obj (.cons "count" (.num (.float (85 / 2 : Rat))) .nil)))
        = validate_block (.mk [("count", Attribute.required_int64)] .nil none)
            (.obj (.cons "count" (.num (.float (85 / 2 : Rat))) .nil)) "" from rfl]
    rw [validate_block_obj, validateBlocks_nil]
    rw [show validateAttrs [("count", Attribute.required_int64)]
          (.cons "count" (.num (.float (85 / 2 : Rat))) .nil) ""
        = validate_attribute_type .Int64 (.num (.float (85 / 2 : Rat))) "count" ++ [] from rfl]
    rw [validate_attribute_type_Int64]
    have hfr : f64_fract (85 / 2 : Rat) ≠ 0 := by
      rw [f64_fract, f64_trunc, if_neg (by norm_num)]
      norm_num
    have h425 : is_int64 (.num (.float (85 / 2 : Rat))) = false := by
      simp [is_int64, JNumber.as_i64, JNumber.as_f64, hfr]
    rw [h425]
    rfl

theorem C6_int64_check_witness :
    is_int64 (.num (.float (0 : Rat))) = true
    ∧ is_int64 (.num (.posInt 7)) = true :=
  ⟨(C6_int64_check 0 0 0).1.mpr
      ⟨by
        rw [show (0 : Rat) = (((0 : Int) : Int) : Rat) by norm_num]
        exact f64_fract_intCast 0,
       by norm_num [I64_MIN_F], by norm_num [I64_MAX_F]⟩,
   (C6_int64_check 0 7 0).2.1 (by norm_num)⟩
